/-
  Verification of the moabb dataset adapters (BCIComp.py, Ma2020.py).

  Shallow embedding of the two non-trivial components of the repository:
  the adaptive chunked file download (`download_file`, `download_train`,
  `download_test` in BCIComp.py) and the per-subject assembly algorithms
  (`Dataset4a._get_single_subject_data`, `Ma2020._get_single_subject_data`),
  together with the subject-validation logic of both `data_path` methods.

  External collaborators (HTTP client, mne containers, scipy loadmat) are
  modelled at their interface: a response stream is a function from the
  requested chunk size to the list of chunks it yields; the file system is
  a list of paths (with an explicit state for the fetcher); raw matrices
  are lists of rows.
-/
import Mathlib

set_option maxRecDepth 10000

namespace Moabb

/-! ## Fetcher: `download_file` (BCIComp.py lines 53-84)

The Python loop is

    chunk_size = 8192
    for chunk in response.iter_content(chunk_size):
        dt = time.time() - t0
        if dt < 0.01:
            chunk_size *= 2
        elif dt > 0.1 and chunk_size > 8192:
            chunk_size = chunk_size // 2
        if not chunk:
            break
        local_file.write(chunk)
        t0 = time.time()

`response.iter_content(chunk_size)` evaluates its argument exactly once,
when the generator is created; we model a response as a function from the
requested chunk size to the chunk list it will yield. Latencies `dt` are
an input sequence, one per received chunk. -/

/-- A streamed HTTP response: for a requested chunk size, the sequence of
chunks the iterator yields. Chunks are byte lists. -/
def Response : Type := Nat → List (List Nat)

/-- `response.iter_content(size)`: the generator is created once, with the
value the variable holds at that moment. -/
def iter_content (response : Response) (size : Nat) : List (List Nat) :=
  response size

/-- One round of the chunk-size adaptation in `download_file`:
double when `dt < 0.01`, halve when `dt > 0.1` and the size exceeds 8192,
otherwise keep. Times are rationals in seconds. -/
def adaptChunkSize (cs : Nat) (dt : ℚ) : Nat :=
  if dt < 1/100 then cs * 2
  else if 1/10 < dt ∧ 8192 < cs then cs / 2
  else cs

/-- The body of the download loop: consumes the (already materialised)
chunk list and one latency per received chunk, threading the mutated
`chunk_size` variable. Returns the bytes written to the `.part` file and
the sequence of values `chunk_size` takes after each received chunk.
An empty chunk breaks the loop (after the `chunk_size` update, as in the
source); an exhausted iterator ends it normally. -/
def downloadLoop : List (List Nat) → Nat → List ℚ → List Nat × List Nat
  | [], _, _ => ([], [])
  | c :: rest, cs, lats =>
    if c = [] then ([], [adaptChunkSize cs (lats.headD 0)])
    else
      (c ++ (downloadLoop rest (adaptChunkSize cs (lats.headD 0)) lats.tail).1,
       adaptChunkSize cs (lats.headD 0) ::
         (downloadLoop rest (adaptChunkSize cs (lats.headD 0)) lats.tail).2)

/-- Bytes that `download_file` writes for a given response and latency
sequence: the iterator is created with the initial `chunk_size = 8192`. -/
def downloadBytes (response : Response) (lats : List ℚ) : List Nat :=
  (downloadLoop (iter_content response 8192) 8192 lats).1

/-- The `chunk_size` trace of `download_file` for a given response and
latency sequence. -/
def chunkSizeTrace (response : Response) (lats : List ℚ) : List Nat :=
  (downloadLoop (iter_content response 8192) 8192 lats).2

/-- Spec-side loop for the refinement claim: write every chunk in order,
stopping at the first empty chunk — no chunk-size variable at all. -/
def writeChunksFixed : List (List Nat) → List Nat
  | [] => []
  | c :: rest => if c = [] then [] else c ++ writeChunksFixed rest

/-- Modelled from the claim under check: a download that uses a FIXED
chunk size of 8192 throughout — no adaptation at all. The refinement
claim compares `downloadBytes` against this. -/
def downloadBytesFixed (response : Response) : List Nat :=
  writeChunksFixed (iter_content response 8192)

/-- The bytes component of the loop never depends on the chunk-size
argument nor on the latencies. -/
theorem downloadLoop_fst (chunks : List (List Nat)) :
    ∀ cs lats cs' lats',
      (downloadLoop chunks cs lats).1 = (downloadLoop chunks cs' lats').1 := by
  induction chunks with
  | nil => intro cs lats cs' lats'; rfl
  | cons c rest ih =>
    intro cs lats cs' lats'
    simp only [downloadLoop]
    by_cases hc : c = []
    · simp [hc]
    · simp only [if_neg hc]
      rw [ih (adaptChunkSize cs (lats.headD 0)) lats.tail
            (adaptChunkSize cs' (lats'.headD 0)) lats'.tail]

/-- A concrete response used for the worked example of the claims: three
one-byte chunks, whatever chunk size is requested. -/
def exampleResponse : Response := fun _ => [[0], [0], [0]]

/-- The bytes written by the adaptive loop are exactly those of the
fixed-chunk loop, whatever the starting size and latencies. -/
theorem downloadLoop_fst_eq_writeChunksFixed (chunks : List (List Nat)) :
    ∀ cs lats, (downloadLoop chunks cs lats).1 = writeChunksFixed chunks := by
  induction chunks with
  | nil => intro cs lats; rfl
  | cons c rest ih =>
    intro cs lats
    simp only [downloadLoop, writeChunksFixed]
    by_cases hc : c = []
    · simp [hc]
    · simp only [if_neg hc]
      rw [ih (adaptChunkSize cs (lats.headD 0)) lats.tail]

/-- Reading the head with default equals `getD 0`. -/
theorem headD_eq_getD_zero (lats : List ℚ) : lats.headD 0 = lats.getD 0 0 := by
  cases lats <;> rfl

theorem tail_getD (lats : List ℚ) (j : Nat) : lats.tail.getD j 0 = lats.getD (j + 1) 0 := by
  cases lats <;> simp [List.getD]

theorem downloadLoop_empty_chunk (c : List Nat) (rest : List (List Nat)) (cs : Nat)
    (lats : List ℚ) (hc : c = []) :
    downloadLoop (c :: rest) cs lats = ([], [adaptChunkSize cs (lats.headD 0)]) := by
  simp [downloadLoop, hc]

theorem downloadLoop_data_chunk (c : List Nat) (rest : List (List Nat)) (cs : Nat)
    (lats : List ℚ) (hc : c ≠ []) :
    downloadLoop (c :: rest) cs lats =
      (c ++ (downloadLoop rest (adaptChunkSize cs (lats.headD 0)) lats.tail).1,
       adaptChunkSize cs (lats.headD 0) ::
         (downloadLoop rest (adaptChunkSize cs (lats.headD 0)) lats.tail).2) := by
  simp [downloadLoop, hc]

/-- The recorded trace entry `i` is obtained from the previous value of
`chunk_size` (the initial value for `i = 0`) by one adaptation round with
the `i`-th latency. -/
theorem downloadLoop_trace_rel (chunks : List (List Nat)) :
    ∀ (cs : Nat) (lats : List ℚ) (i : Nat),
      i < ((downloadLoop chunks cs lats).2).length →
      ((downloadLoop chunks cs lats).2).getD i 0 =
        adaptChunkSize ((cs :: (downloadLoop chunks cs lats).2).getD i 0)
          (lats.getD i 0) := by
  induction chunks with
  | nil => intro cs lats i h; simp [downloadLoop] at h
  | cons c rest ih =>
    intro cs lats i h
    by_cases hc : c = []
    · rw [downloadLoop_empty_chunk c rest cs lats hc] at h ⊢
      match i with
      | 0 => cases lats <;> rfl
      | Nat.succ j => simp at h
    · rw [downloadLoop_data_chunk c rest cs lats hc] at h ⊢
      match i with
      | 0 => cases lats <;> rfl
      | Nat.succ j =>
        simp only [List.length_cons, Nat.succ_lt_succ_iff] at h
        have := ih (adaptChunkSize cs (lats.headD 0)) lats.tail j h
        simpa [List.getD_cons_succ, tail_getD] using this

/-- Adaptation keeps `chunk_size` of the form `8192 * 2 ^ k`. -/
theorem adaptChunkSize_pow (cs : Nat) (dt : ℚ) (k : Nat) (h : cs = 8192 * 2 ^ k) :
    ∃ m, adaptChunkSize cs dt = 8192 * 2 ^ m := by
  unfold adaptChunkSize
  split_ifs with h1 h2
  · exact ⟨k + 1, by subst h; ring⟩
  · refine ⟨k - 1, ?_⟩
    have hk : k ≠ 0 := by
      rintro rfl
      simp [h] at h2
    obtain ⟨k', rfl⟩ := Nat.exists_eq_succ_of_ne_zero hk
    subst h
    simp [pow_succ, Nat.succ_sub_one]
    ring_nf
    omega
  · exact ⟨k, h⟩

/-- Every value in the `chunk_size` trace is of the form `8192 * 2 ^ k`
when the starting size is. -/
theorem downloadLoop_trace_pow (chunks : List (List Nat)) :
    ∀ (cs : Nat) (lats : List ℚ) (k : Nat), cs = 8192 * 2 ^ k →
      ∀ s ∈ (downloadLoop chunks cs lats).2, ∃ m, s = 8192 * 2 ^ m := by
  induction chunks with
  | nil => intro cs lats k hk s hs; simp [downloadLoop] at hs
  | cons c rest ih =>
    intro cs lats k hk s hs
    simp only [downloadLoop] at hs
    by_cases hc : c = []
    · simp only [if_pos hc, List.mem_singleton] at hs
      subst hs
      exact adaptChunkSize_pow cs (lats.headD 0) k hk
    · simp only [if_neg hc, List.mem_cons] at hs
      obtain ⟨m, hm⟩ := adaptChunkSize_pow cs (lats.headD 0) k hk
      rcases hs with rfl | hs
      · exact ⟨m, hm⟩
      · exact ih _ lats.tail m hm s hs

theorem getD_mem_of_lt (l : List Nat) : ∀ i, i < l.length → l.getD i 0 ∈ l := by
  induction l with
  | nil => intro i h; simp at h
  | cons a t ih =>
    intro i h
    match i with
    | 0 => simp [List.getD]
    | Nat.succ j =>
      simp only [List.length_cons, Nat.succ_lt_succ_iff] at h
      rw [List.getD_cons_succ]
      exact List.mem_cons_of_mem a (ih j h)

/-- Claim C4: during download, starting from `chunk_size = 8192`, after each
received chunk with inter-arrival latency `dt` the size is doubled when
`dt < 0.01`, halved when `dt > 0.1` and the size exceeds 8192, and kept
otherwise; it never falls below 8192; and for latencies
`[0.005, 0.005, 0.2]` the trace is `[16384, 32768, 16384]`. -/
theorem chunk_size_adaptation_C4 (response : Response) (lats : List ℚ)
    (i : Nat) (hi : i < (chunkSizeTrace response lats).length) :
    ((lats.getD i 0 < 1/100 →
        (chunkSizeTrace response lats).getD i 0 =
          ((8192 :: chunkSizeTrace response lats).getD i 0) * 2) ∧
     (¬ lats.getD i 0 < 1/100 → 1/10 < lats.getD i 0 →
        8192 < (8192 :: chunkSizeTrace response lats).getD i 0 →
        (chunkSizeTrace response lats).getD i 0 =
          ((8192 :: chunkSizeTrace response lats).getD i 0) / 2) ∧
     (¬ lats.getD i 0 < 1/100 →
        ¬(1/10 < lats.getD i 0 ∧ 8192 < (8192 :: chunkSizeTrace response lats).getD i 0) →
        (chunkSizeTrace response lats).getD i 0 =
          (8192 :: chunkSizeTrace response lats).getD i 0) ∧
     8192 ≤ (chunkSizeTrace response lats).getD i 0) ∧
    chunkSizeTrace exampleResponse [1/200, 1/200, 1/5] = [16384, 32768, 16384] := by
  constructor
  · have hrel : (chunkSizeTrace response lats).getD i 0 =
        adaptChunkSize ((8192 :: chunkSizeTrace response lats).getD i 0) (lats.getD i 0) :=
      downloadLoop_trace_rel (iter_content response 8192) 8192 lats i hi
    refine ⟨?_, ?_, ?_, ?_⟩
    · intro h1
      rw [hrel]
      unfold adaptChunkSize
      rw [if_pos h1]
    · intro h1 h2 h3
      rw [hrel]
      unfold adaptChunkSize
      rw [if_neg h1, if_pos (And.intro h2 h3)]
    · intro h1 h2
      rw [hrel]
      unfold adaptChunkSize
      rw [if_neg h1, if_neg h2]
    · have hmem := getD_mem_of_lt (chunkSizeTrace response lats) i hi
      obtain ⟨m, hm⟩ :=
        downloadLoop_trace_pow (iter_content response 8192) 8192 lats 0 (by norm_num)
          _ hmem
      rw [hm]
      have : (1 : Nat) ≤ 2 ^ m := Nat.one_le_two_pow
      calc 8192 = 8192 * 1 := by ring
        _ ≤ 8192 * 2 ^ m := Nat.mul_le_mul_left 8192 this
  · norm_num [chunkSizeTrace, downloadLoop, iter_content, exampleResponse, adaptChunkSize]

/-- Witness for claim C4 at the worked example: latency `0.005` (below
`0.01`) doubles the initial 8192 to 16384, and the full trace for
`[0.005, 0.005, 0.2]` is `[16384, 32768, 16384]`. -/
theorem chunk_size_adaptation_C4_witness :
    (chunkSizeTrace exampleResponse [1/200, 1/200, 1/5]).getD 0 0 = 16384 ∧
    chunkSizeTrace exampleResponse [1/200, 1/200, 1/5] = [16384, 32768, 16384] := by
  have h := chunk_size_adaptation_C4 exampleResponse [1/200, 1/200, 1/5] 0
    (by simp [chunkSizeTrace, downloadLoop, iter_content, exampleResponse])
  refine ⟨?_, h.2⟩
  have h1 := h.1.1 (by norm_num [List.getD])
  simpa [List.getD] using h1

/-- Claim C9: the bytes `download_file` writes are identical to those of a
download with a fixed chunk size of 8192 — the `chunk_size` argument of
`iter_content` is read exactly once, before the loop, so the file content
is independent of the observed latencies. -/
theorem download_bytes_latency_independent_C9 (response : Response)
    (lats lats' : List ℚ) :
    downloadBytes response lats = downloadBytesFixed response ∧
    downloadBytes response lats = downloadBytes response lats' := by
  refine ⟨downloadLoop_fst_eq_writeChunksFixed _ 8192 lats, ?_⟩
  exact downloadLoop_fst _ 8192 lats 8192 lats'

/-! ## Fetcher: file-system effects of `download_file`, `download_train`,
`download_test` (BCIComp.py lines 28-50, 53-84)

The file system is the list of existing paths. A network stream is a list
of events: a data chunk, or an I/O error that aborts the transfer. The
source opens `destination + ".part"` in `wb` mode (creating it), appends
every chunk, and only after the loop ends moves the temporary file onto
`destination` with `shutil.move`. -/

/-- One event of a streamed transfer. -/
inductive NetEvent
  | chunk (data : List Nat)
  | ioError
deriving DecidableEq

/-- `shutil.move src dst`: `src` disappears, `dst` appears. -/
def moveFile (src dst : String) (fs : List String) : List String :=
  dst :: fs.filter (fun p => p ≠ src)

/-- The download loop over the stream events: chunks only append to the
already-created `.part` file (existence unchanged), an empty chunk or an
exhausted iterator ends the loop and the temporary file is renamed onto
the destination, an I/O error aborts the call with the file system as it
stands. The Bool result records success. -/
def downloadFileLoopFS (destination : String) : List NetEvent → List String → List String × Bool
  | [], fs => (moveFile (destination ++ ".part") destination fs, true)
  | NetEvent.chunk c :: rest, fs =>
    if c = [] then (moveFile (destination ++ ".part") destination fs, true)
    else downloadFileLoopFS destination rest fs
  | NetEvent.ioError :: _, fs => (fs, false)

/-- File-system effect of `download_file destination response`: create
(or truncate) the temporary `.part` file, then run the loop. -/
def download_file_fs (destination : String) (events : List NetEvent)
    (fs : List String) : List String × Bool :=
  downloadFileLoopFS destination events
    ((destination ++ ".part") :: fs.filter (fun p => p ≠ destination ++ ".part"))

/-- A string never equals itself extended with the non-empty suffix
`".part"`. -/
theorem ne_append_part (s : String) : s ≠ s ++ ".part" := by
  intro h
  have hlen := congrArg String.length h
  rw [String.length_append] at hlen
  have h5 : (".part" : String).length = 5 := rfl
  omega

/-- An element is never kept by a filter that excludes exactly it. -/
theorem not_mem_filter_ne_self (x : String) (g : List String) :
    x ∉ g.filter (fun p => p ≠ x) := by
  intro h
  have := (List.mem_filter.mp h).2
  simp at this

/-- After a move, the source path is gone (when distinct from the target). -/
theorem src_not_mem_moveFile (src dst : String) (fs : List String) (h : src ≠ dst) :
    src ∉ moveFile src dst fs := by
  simp only [moveFile, List.mem_cons]
  push_neg
  exact ⟨h, not_mem_filter_ne_self src fs⟩

/-- Claim C5: an interrupted transfer leaves no file at the destination,
only the temporary `.part` file; a successful transfer renames the
temporary file onto the destination. -/
theorem download_atomicity_C5 (destination : String) (events : List NetEvent)
    (fs : List String) (hd : destination ∉ fs) :
    ((download_file_fs destination events fs).2 = false →
      destination ∉ (download_file_fs destination events fs).1 ∧
      (destination ++ ".part") ∈ (download_file_fs destination events fs).1) ∧
    ((download_file_fs destination events fs).2 = true →
      destination ∈ (download_file_fs destination events fs).1 ∧
      (destination ++ ".part") ∉ (download_file_fs destination events fs).1) := by
  have hmove : ∀ g : List String,
      destination ∈ moveFile (destination ++ ".part") destination g ∧
      (destination ++ ".part") ∉ moveFile (destination ++ ".part") destination g := by
    intro g
    refine ⟨List.mem_cons_self _ _, ?_⟩
    exact src_not_mem_moveFile _ _ g (Ne.symm (ne_append_part destination))
  have main : ∀ (evs : List NetEvent) (g : List String), destination ∉ g →
      (destination ++ ".part") ∈ g →
      (((downloadFileLoopFS destination evs g).2 = false →
        destination ∉ (downloadFileLoopFS destination evs g).1 ∧
        (destination ++ ".part") ∈ (downloadFileLoopFS destination evs g).1) ∧
       ((downloadFileLoopFS destination evs g).2 = true →
        destination ∈ (downloadFileLoopFS destination evs g).1 ∧
        (destination ++ ".part") ∉ (downloadFileLoopFS destination evs g).1)) := by
    intro evs
    induction evs with
    | nil =>
      intro g hg hp
      exact ⟨fun hfalse => by simp [downloadFileLoopFS] at hfalse,
             fun _ => hmove g⟩
    | cons e rest ih =>
      intro g hg hp
      match e with
      | NetEvent.ioError =>
        exact ⟨fun _ => ⟨hg, hp⟩,
               fun htrue => by simp [downloadFileLoopFS] at htrue⟩
      | NetEvent.chunk c =>
        by_cases hc : c = []
        · simp only [downloadFileLoopFS, if_pos hc]
          exact ⟨fun hfalse => by simp at hfalse, fun _ => hmove g⟩
        · simp only [downloadFileLoopFS, if_neg hc]
          exact ih g hg hp
  apply main
  · simp only [List.mem_cons]
    push_neg
    refine ⟨ne_append_part destination, ?_⟩
    intro hmem
    exact hd (List.mem_of_mem_filter hmem)
  · exact List.mem_cons_self _ _

/-- Witness for claim C5: a transfer of one data chunk followed by an I/O
error leaves only the temporary file on an initially empty disk. -/
theorem download_atomicity_C5_witness :
    "f" ∉ (download_file_fs "f" [NetEvent.chunk [1], NetEvent.ioError] []).1 ∧
    "f" ++ ".part" ∈ (download_file_fs "f" [NetEvent.chunk [1], NetEvent.ioError] []).1 :=
  (download_atomicity_C5 "f" [NetEvent.chunk [1], NetEvent.ioError] []
    (List.not_mem_nil "f")).1 rfl

/-! ## Fetcher: caching in `download_train` / `download_test`
(BCIComp.py lines 28-50)

    def download_train(subject, sign, timeout=30):
        ...
        if not op.isfile(matpath):
            if not op.isfile(zippath):
                response = requests.get(url, ...)
                zippath = download_file(zippath, response)
            with z.ZipFile(zippath) as f:
                f.extractall(base_path)
            os.remove(zippath)
        return matpath

    def download_test(subject, sign, timeout=30):
        ...
        if not op.isfile(destination):
            response = requests.get(url, ...)
            download_file(destination, response)
        return destination

State: the set of existing paths plus a count of network transfers
performed (each `requests.get` + successful `download_file` is one
transfer that makes its destination exist). -/

/-- Fetcher state: files on disk and the number of network transfers
performed so far. -/
structure FetchState where
  fs : List String
  transfers : Nat
deriving DecidableEq

/-- `download_train`: return the cached `.mat` immediately when present;
otherwise download the zip archive unless already present (one network
transfer), extract it (the `.mat` appears), and remove the zip. -/
def download_train (matpath zippath : String) (st : FetchState) : FetchState × String :=
  if matpath ∈ st.fs then (st, matpath)
  else
    let st1 := if zippath ∈ st.fs then st
               else { fs := zippath :: st.fs, transfers := st.transfers + 1 }
    ({ fs := matpath :: st1.fs.filter (fun p => p ≠ zippath), transfers := st1.transfers },
     matpath)

/-- `download_test`: return the cached label file immediately when
present; otherwise one network transfer makes it exist. -/
def download_test (destination : String) (st : FetchState) : FetchState × String :=
  if destination ∈ st.fs then (st, destination)
  else ({ fs := destination :: st.fs, transfers := st.transfers + 1 }, destination)

/-- Claim C6: resolving the same target twice performs exactly one network
transfer; whenever the final path already exists, the call returns it
immediately with no network call, so the second call is a pure cache hit.
Stated for both fetch operations,`download_train` and `download_test`. -/
theorem resolve_idempotent_C6 (matpath zippath destination : String) (st : FetchState)
    (hmat : matpath ∉ st.fs) (hzip : zippath ∉ st.fs) (hdst : destination ∉ st.fs) :
    ((download_train matpath zippath st).1.transfers = st.transfers + 1 ∧
     download_train matpath zippath (download_train matpath zippath st).1 =
       ((download_train matpath zippath st).1, matpath) ∧
     (∀ st' : FetchState, matpath ∈ st'.fs →
        download_train matpath zippath st' = (st', matpath))) ∧
    ((download_test destination st).1.transfers = st.transfers + 1 ∧
     download_test destination (download_test destination st).1 =
       ((download_test destination st).1, destination) ∧
     (∀ st' : FetchState, destination ∈ st'.fs →
        download_test destination st' = (st', destination))) := by
  have hit_train : ∀ st' : FetchState, matpath ∈ st'.fs →
      download_train matpath zippath st' = (st', matpath) := by
    intro st' h
    simp [download_train, h]
  have hit_test : ∀ st' : FetchState, destination ∈ st'.fs →
      download_test destination st' = (st', destination) := by
    intro st' h
    simp [download_test, h]
  refine ⟨⟨?_, ?_, hit_train⟩, ⟨?_, ?_, hit_test⟩⟩
  · simp [download_train, if_neg hmat, hzip]
  · apply hit_train
    simp [download_train, if_neg hmat, hzip]
  · simp [download_test, hdst]
  · apply hit_test
    simp [download_test, hdst]

/-- Witness for claim C6: on an empty cache the first fetch performs one
transfer and the second is a pure cache hit, for both operations. -/
theorem resolve_idempotent_C6_witness :
    (download_train "m" "z" ⟨[], 0⟩).1.transfers = 1 ∧
    download_train "m" "z" (download_train "m" "z" ⟨[], 0⟩).1 =
      ((download_train "m" "z" ⟨[], 0⟩).1, "m") ∧
    (download_test "t" ⟨[], 0⟩).1.transfers = 1 ∧
    download_test "t" (download_test "t" ⟨[], 0⟩).1 =
      ((download_test "t" ⟨[], 0⟩).1, "t") := by
  have h := resolve_idempotent_C6 "m" "z" "t" ⟨[], 0⟩
    (List.not_mem_nil "m") (List.not_mem_nil "z") (List.not_mem_nil "t")
  exact ⟨h.1.1, h.1.2.1, h.2.1, h.2.2.1⟩

/-! ## Assembler, Case B: `Dataset4a._get_single_subject_data`
(BCIComp.py lines 127-163)

    raw_data = train_data['cnt'].T
    raw_event = np.zeros((1, raw_data.shape[1]))
    cue_pos = train_data['mrk'][0, 0][0]
    sep_idx = np.min(test_data['test_idx'])
    sep_pos = cue_pos[0, sep_idx]
    raw_event[:, cue_pos] = test_data['true_y']
    data = np.concatenate([raw_data, raw_event], axis=0)
    raw_train = RawArray(data=data[:, :sep_pos], ...)
    raw_test = RawArray(data=data[:, sep_pos:], ...)
    return {'session_1': {'train': raw_train, 'test': raw_test}}

The raw matrix is a list of channel rows (`cnt.T`: channels x samples);
cue positions are sample indices; `test_idx` lives in the index space of
the cue sequence; `true_y` is the label vector aligned with the cues.
`np.min` of an empty array raises, indexing `cue_pos` out of range
raises, and the fancy assignment raises when a cue position is outside
the sample range or the shapes disagree — each failure aborts assembly. -/

/-- Failures of Case B assembly. The first three are the alignment
failures the spec groups under `LabelAlignmentError`; the last is its
`ShapeMismatchError`. -/
inductive AssembleError
  | labelNoBoundary
  | labelBoundaryIndexOutOfRange
  | labelCueOutOfBounds
  | shapeMismatch
deriving DecidableEq

/-- The spec taxonomy: which failures are label-alignment failures. -/
def AssembleError.isLabelAlignment : AssembleError → Bool
  | .labelNoBoundary => true
  | .labelBoundaryIndexOutOfRange => true
  | .labelCueOutOfBounds => true
  | .shapeMismatch => false

/-- Number of samples of the raw matrix: the common row length
(`raw_data.shape[1]`). -/
def sampleCount (cnt_T : List (List Int)) : Nat := (cnt_T.headD []).length

/-- The dense event row: a zero-filled row of length `n` whose entry at
each cue position is set to the corresponding label value
(`raw_event[:, cue_pos] = true_y`; later assignments overwrite earlier
ones, as in numpy fancy assignment). -/
def eventRow (n : Nat) (cue_pos : List Nat) (true_y : List Int) : List Int :=
  (cue_pos.zip true_y).foldl (fun row pv => row.set pv.1 pv.2) (List.replicate n (0 : Int))

/-- `data[:, :p]` and `data[:, p:]`: partition every row of the combined
matrix at the split position, exclusive on the train side and inclusive
on the test side. -/
def splitMatrix (data : List (List Int)) (p : Nat) :
    List (List Int) × List (List Int) :=
  (data.map (fun row => row.take p), data.map (fun row => row.drop p))

/-- `sep_pos`: the raw-matrix sample index of the cue at the minimum
test index, when both lookups succeed. -/
def splitPos (cue_pos test_idx : List Nat) : Option Nat :=
  (test_idx.min?).bind (fun i => cue_pos.get? i)

/-- Case B assembly (`Dataset4a._get_single_subject_data` after loading):
compute the boundary, build the event row, stack it under the raw
channels and split at `sep_pos`. Each numpy failure becomes an explicit
error, in source order. -/
def assembleCaseB (cnt_T : List (List Int)) (cue_pos : List Nat)
    (test_idx : List Nat) (true_y : List Int) :
    Except AssembleError (List (String × List (String × List (List Int)))) :=
  match test_idx.min? with
  | none => .error .labelNoBoundary
  | some sep_idx =>
    match cue_pos.get? sep_idx with
    | none => .error .labelBoundaryIndexOutOfRange
    | some sep_pos =>
      if cue_pos.any (fun p => sampleCount cnt_T ≤ p) then
        .error .labelCueOutOfBounds
      else if cue_pos.length ≠ true_y.length then
        .error .shapeMismatch
      else
        .ok [("session_1",
              [("train", (splitMatrix (cnt_T ++ [eventRow (sampleCount cnt_T) cue_pos true_y]) sep_pos).1),
               ("test",  (splitMatrix (cnt_T ++ [eventRow (sampleCount cnt_T) cue_pos true_y]) sep_pos).2)])]

/-- Claim C1: when Case B assembly succeeds the split position is a valid
sample index in `[0, sample_count)`; an empty label boundary and a
boundary index out of range for the cue sequence both abort assembly with
a label-alignment failure. -/
theorem split_position_valid_C1 (cnt_T : List (List Int)) (cue_pos test_idx : List Nat)
    (true_y : List Int) :
    (∀ out, assembleCaseB cnt_T cue_pos test_idx true_y = .ok out →
      ∃ p, splitPos cue_pos test_idx = some p ∧ p < sampleCount cnt_T) ∧
    (test_idx = [] →
      assembleCaseB cnt_T cue_pos test_idx true_y = .error .labelNoBoundary ∧
      AssembleError.labelNoBoundary.isLabelAlignment = true) ∧
    (∀ i, test_idx.min? = some i → cue_pos.length ≤ i →
      assembleCaseB cnt_T cue_pos test_idx true_y = .error .labelBoundaryIndexOutOfRange ∧
      AssembleError.labelBoundaryIndexOutOfRange.isLabelAlignment = true) := by
  refine ⟨?_, ?_, ?_⟩
  · intro out hok
    unfold assembleCaseB at hok
    match hmin : test_idx.min? with
    | none => simp only [hmin] at hok; exact Except.noConfusion hok
    | some sep_idx =>
      simp only [hmin] at hok
      match hget : cue_pos.get? sep_idx with
      | none => simp only [hget] at hok; exact Except.noConfusion hok
      | some sep_pos =>
        simp only [hget] at hok
        by_cases hoob : cue_pos.any (fun p => sampleCount cnt_T ≤ p)
        · simp [hoob] at hok
        · simp only [hoob, Bool.false_eq_true, if_false] at hok
          refine ⟨sep_pos, ?_, ?_⟩
          · unfold splitPos
            rw [hmin]
            simpa using hget
          · have hmem : sep_pos ∈ cue_pos := List.get?_mem hget
            simp only [List.any_eq_true, not_exists, not_and] at hoob
            have := hoob sep_pos hmem
            simp only [decide_eq_true_eq] at this
            omega
  · intro h
    subst h
    exact ⟨rfl, rfl⟩
  · intro i hmin hlen
    have hget : cue_pos.get? i = none := List.get?_eq_none.mpr hlen
    refine ⟨?_, rfl⟩
    unfold assembleCaseB
    simp only [hmin, hget]

/-- Witness for claim C1: a successful two-sample assembly has a valid
split position; an empty `test_idx` and an out-of-range boundary index
both abort with the corresponding label-alignment failure. -/
theorem split_position_valid_C1_witness :
    (∃ p, splitPos [1] [0] = some p ∧ p < sampleCount [[(0 : Int), 0]]) ∧
    assembleCaseB [[(0 : Int), 0]] [1] [] [5] = .error .labelNoBoundary ∧
    assembleCaseB [[(0 : Int), 0]] [] [0] [5] = .error .labelBoundaryIndexOutOfRange := by
  refine ⟨?_, ?_, ?_⟩
  · exact (split_position_valid_C1 [[(0 : Int), 0]] [1] [0] [5]).1 _ rfl
  · exact ((split_position_valid_C1 [[(0 : Int), 0]] [1] [] [5]).2.1 rfl).1
  · exact ((split_position_valid_C1 [[(0 : Int), 0]] [] [0] [5]).2.2 0 rfl
      (Nat.le_refl 0)).1

/-- Claim C3: partitioning a matrix of `N`-sample rows at a valid split
position `p` yields a train segment of exactly `p` samples and a test
segment of exactly `N - p` samples per row; concatenating them
reconstructs each row; the total output sample count equals the input
sample count; and an index is in the train segment exactly when it is
below `p`, in the test segment exactly when it is at or beyond `p` — no
sample belongs to both. -/
theorem split_completeness_C3 (m : List (List Int)) (N p : Nat)
    (hp : p < N) (hm : ∀ row ∈ m, row.length = N) :
    (∀ row ∈ (splitMatrix m p).1, row.length = p) ∧
    (∀ row ∈ (splitMatrix m p).2, row.length = N - p) ∧
    (∀ row ∈ m, row.take p ++ row.drop p = row) ∧
    (∀ row ∈ m, (row.take p).length + (row.drop p).length = N) ∧
    (∀ row ∈ m, ∀ i : Nat,
      (row.take p).get? i = if i < p then row.get? i else none) ∧
    (∀ row ∈ m, ∀ i : Nat, (row.drop p).get? i = row.get? (p + i)) := by
  refine ⟨?_, ?_, ?_, ?_, ?_, ?_⟩
  · intro row hrow
    simp only [splitMatrix, List.mem_map] at hrow
    obtain ⟨r, hr, rfl⟩ := hrow
    rw [List.length_take, hm r hr]
    omega
  · intro row hrow
    simp only [splitMatrix, List.mem_map] at hrow
    obtain ⟨r, hr, rfl⟩ := hrow
    rw [List.length_drop, hm r hr]
  · intro row _
    exact List.take_append_drop p row
  · intro row hrow
    rw [List.length_take, List.length_drop, hm row hrow]
    omega
  · intro row hrow i
    by_cases hi : i < p
    · rw [if_pos hi]
      exact List.get?_take hi
    · rw [if_neg hi]
      apply List.get?_eq_none.mpr
      rw [List.length_take]
      omega
  · intro row _ i
    exact List.get?_drop row p i

/-- First components of zipped pairs of a duplicate-free list are
duplicate-free. -/
theorem nodup_map_fst_zip (l : List Nat) (l' : List Int) (h : l.Nodup) :
    ((l.zip l').map Prod.fst).Nodup := by
  induction l generalizing l' with
  | nil => simp
  | cons a t ih =>
    cases l' with
    | nil => simp
    | cons b t' =>
      simp only [List.zip_cons_cons, List.map_cons, List.nodup_cons] at h ⊢
      refine ⟨fun hmem => ?_, ih t' h.2⟩
      have ha : a ∈ t := by
        simp only [List.mem_map] at hmem
        obtain ⟨⟨x, y⟩, hxy, hx⟩ := hmem
        subst hx
        exact (List.of_mem_zip hxy).1
      exact h.1 ha

/-- A fold of positional writes leaves every position outside the write
set untouched. -/
theorem foldl_set_get?_not_mem (pairs : List (Nat × Int)) :
    ∀ (init : List Int) (i : Nat), i ∉ pairs.map Prod.fst →
      (pairs.foldl (fun r pv => r.set pv.1 pv.2) init).get? i = init.get? i := by
  induction pairs with
  | nil => intro init i _; rfl
  | cons pv rest ih =>
    intro init i hi
    simp only [List.map_cons, List.mem_cons] at hi
    push_neg at hi
    rw [List.foldl_cons, ih (init.set pv.1 pv.2) i hi.2]
    exact List.get?_set_ne pv.2 init (Ne.symm hi.1)

/-- A fold of positional writes with duplicate-free positions realises
each write. -/
theorem foldl_set_get?_mem (pairs : List (Nat × Int)) :
    ∀ (init : List Int) (p : Nat) (v : Int),
      (pairs.map Prod.fst).Nodup → (p, v) ∈ pairs → p < init.length →
      (pairs.foldl (fun r pv => r.set pv.1 pv.2) init).get? p = some v := by
  induction pairs with
  | nil => intro init p v _ hmem _; simp at hmem
  | cons qw rest ih =>
    intro init p v hnd hmem hlt
    simp only [List.map_cons, List.nodup_cons] at hnd
    rw [List.foldl_cons]
    rcases List.mem_cons.mp hmem with heq | hmem'
    · subst heq
      rw [foldl_set_get?_not_mem rest (init.set p v) p hnd.1]
      exact List.get?_set_eq_of_lt v hlt
    · apply ih (init.set qw.1 qw.2) p v hnd.2 hmem'
      rw [List.length_set]
      exact hlt

/-- Entries of the event row away from every cue position are zero. -/
theorem eventRow_get_not_mem (n : Nat) (cue_pos : List Nat) (true_y : List Int)
    (i : Nat) (hn : i < n) (hi : i ∉ cue_pos) :
    (eventRow n cue_pos true_y).get? i = some 0 := by
  unfold eventRow
  rw [foldl_set_get?_not_mem]
  · simp [List.get?_eq_getElem?, List.getElem?_replicate, hn]
  · intro hmem
    simp only [List.mem_map] at hmem
    obtain ⟨⟨x, y⟩, hxy, hx⟩ := hmem
    subst hx
    exact hi (List.of_mem_zip hxy).1

/-- The entry of the event row at a cue position is the corresponding
label value (for duplicate-free cue positions within the sample range). -/
theorem eventRow_get_mem (n : Nat) (cue_pos : List Nat) (true_y : List Int)
    (p : Nat) (v : Int) (hnd : cue_pos.Nodup) (hmem : (p, v) ∈ cue_pos.zip true_y)
    (hn : p < n) :
    (eventRow n cue_pos true_y).get? p = some v := by
  unfold eventRow
  apply foldl_set_get?_mem _ _ _ _ (nodup_map_fst_zip cue_pos true_y hnd) hmem
  rw [List.length_replicate]
  exact hn

/-- The end-to-end scenario of the spec: one zero channel of 1000
samples. -/
def scenarioRaw : List (List Int) := [List.replicate 1000 (0 : Int)]

/-- Cue positions of the scenario. -/
def scenarioCues : List Nat := [100, 500, 900]

/-- Label vector of the scenario: third cue unlabeled (zero). -/
def scenarioLabels : List Int := [1, 2, 0]

/-- The combined matrix of the scenario: raw channel plus event row. -/
def scenarioData : List (List Int) :=
  scenarioRaw ++ [eventRow 1000 scenarioCues scenarioLabels]

/-- Claim C2: the synthesized event row is zero at every non-cue sample
and takes the corresponding label value at each cue position (labels left
zero stay zero); in the end-to-end scenario (1000 samples, cues
`[100, 500, 900]`, labels `[1, 2, 0]`, boundary at cue index 2) assembly
splits at sample 900, the train segment holds exactly two labeled
(non-zero) events and the test segment holds none. -/
theorem event_row_C2 :
    (∀ (n : Nat) (cue_pos : List Nat) (true_y : List Int) (i : Nat),
       i < n → i ∉ cue_pos → (eventRow n cue_pos true_y).get? i = some 0) ∧
    (∀ (n : Nat) (cue_pos : List Nat) (true_y : List Int) (p : Nat) (v : Int),
       cue_pos.Nodup → (p, v) ∈ cue_pos.zip true_y → p < n →
       (eventRow n cue_pos true_y).get? p = some v) ∧
    (assembleCaseB scenarioRaw scenarioCues [2] scenarioLabels =
       .ok [("session_1",
             [("train", (splitMatrix scenarioData 900).1),
              ("test",  (splitMatrix scenarioData 900).2)])] ∧
     ((eventRow 1000 scenarioCues scenarioLabels).take 900).countP
       (fun v => v ≠ 0) = 2 ∧
     ((eventRow 1000 scenarioCues scenarioLabels).drop 900).countP
       (fun v => v ≠ 0) = 0) := by
  refine ⟨?_, ?_, ?_, ?_, ?_⟩
  · intro n cue_pos true_y i h1 h2
    exact eventRow_get_not_mem n cue_pos true_y i h1 h2
  · intro n cue_pos true_y p v h1 h2 h3
    exact eventRow_get_mem n cue_pos true_y p v h1 h2 h3
  · rfl
  · decide
  · decide

/-- Witness for claim C2: in a five-sample row with a single cue at
position 2 labeled 7, position 0 is zero and position 2 reads 7. -/
theorem event_row_C2_witness :
    (eventRow 5 [2] [7]).get? 0 = some 0 ∧ (eventRow 5 [2] [7]).get? 2 = some 7 :=
  ⟨event_row_C2.1 5 [2] [7] 0 (by omega) (by decide),
   event_row_C2.2.1 5 [2] [7] 2 7 (by decide) (by decide) (by omega)⟩

/-- Witness for claim C3: splitting the row `[1, 2, 3]` at position 1
reconstructs it and preserves the sample count. -/
theorem split_completeness_C3_witness :
    ([(1 : Int), 2, 3].take 1 ++ [(1 : Int), 2, 3].drop 1 = [(1 : Int), 2, 3]) ∧
    ([(1 : Int), 2, 3].take 1).length + ([(1 : Int), 2, 3].drop 1).length = 3 := by
  have h := split_completeness_C3 [[(1 : Int), 2, 3]] 3 1 (by omega) (by decide)
  exact ⟨h.2.2.1 _ (by simp), h.2.2.2.1 _ (by simp)⟩

/-! ## Assembler, Case A: `Ma2020._get_single_subject_data`
(Ma2020.py lines 57-83)

    stim = raw.annotations.description.astype(np.dtype('<U11'))
    if len(stim):
        stim[stim == '1'] = 'right_hand'
        stim[stim == '2'] = 'right_elbow'
        raw.annotations.description = stim
    else:
        sfreq = raw.info['sfreq']
        events = np.zeros((75, 3))
        events[:, 0] = np.arange(75.0)*sfreq*4.25
        events[:, -1] = 3
        raw = raw.set_annotations(
            annotations_from_events(events, sfreq, event_desc={3: 'rest'}))

Inline markers are strings; the masked assignments relabel code '1' to
right_hand and code '2' to right_elbow. A run with no inline markers gets
a synthesized events array of 75 rows whose sample onsets are
k*sfreq*4.25 and whose event value 3 maps to the description "rest".
Sample positions are rationals (4.25 = 17/4 is exact in both binary
floating point and here). -/

/-- `stim[stim == old] = new`: the masked assignment over the marker
vector. -/
def maskAssign (xs : List String) (old new : String) : List String :=
  xs.map (fun s => if s = old then new else s)

/-- The two masked assignments of the source, in order. -/
def relabelStim (stim : List String) : List String :=
  maskAssign (maskAssign stim "1" "right_hand") "2" "right_elbow"

/-- The synthesized events array for a run without inline markers:
75 rows `(k*sfreq*4.25, 0, 3)`. -/
def ma2020RestEvents (sfreq : ℚ) : List (ℚ × ℚ × ℚ) :=
  (List.range 75).map (fun (k : Nat) => (((k : ℚ)) * sfreq * (17/4), 0, 3))

/-- The `event_desc={3: 'rest'}` mapping. -/
def ma2020EventDesc (v : ℚ) : Option String :=
  if v = 3 then some "rest" else none

/-- `annotations_from_events`: keep the events whose value has a
description, as (sample onset, description) pairs. -/
def ma2020RestMarks (sfreq : ℚ) : List (ℚ × String) :=
  (ma2020RestEvents sfreq).filterMap
    (fun e => (ma2020EventDesc e.2.2).map (fun d => (e.1, d)))

/-- The per-run marker outcome: relabeled inline markers, or a
synthesized rest train. -/
inductive RunMarks
  | inline (descs : List String)
  | synthesized (marks : List (ℚ × String))
deriving DecidableEq

/-- The Case A per-run branch of `Ma2020._get_single_subject_data`. -/
def processRunMarks (stim : List String) (sfreq : ℚ) : RunMarks :=
  if stim.length ≠ 0 then .inline (relabelStim stim)
  else .synthesized (ma2020RestMarks sfreq)

/-- The synthesized rest train, in closed form: onset `k * 4.25 * sfreq`
for `k = 0, …, 74`, every event described as rest. -/
theorem ma2020RestMarks_eq (sfreq : ℚ) :
    ma2020RestMarks sfreq =
      (List.range 75).map (fun (k : Nat) => (((k : ℚ)) * (17/4) * sfreq, "rest")) := by
  unfold ma2020RestMarks ma2020RestEvents
  rw [List.filterMap_map]
  have hfun : ((fun e : ℚ × ℚ × ℚ => (ma2020EventDesc e.2.2).map (fun d => (e.1, d))) ∘
        (fun k : Nat => (((k : ℚ)) * sfreq * (17/4), (0 : ℚ), (3 : ℚ)))) =
      some ∘ (fun k : Nat => (((k : ℚ)) * sfreq * (17/4), "rest")) := by
    funext k
    simp only [Function.comp_apply]
    norm_num [ma2020EventDesc]
  rw [hfun, List.filterMap_eq_map]
  apply List.map_congr_left
  intro k _
  rw [Prod.ext_iff]
  exact ⟨by ring, rfl⟩

/-- Claim C8: runs with inline markers are relabeled by the fixed table
(code '1' becomes right_hand, code '2' becomes right_elbow, other codes
unchanged); runs without markers get a synthesized uniform rest train of
exactly 75 trials with onsets `k * 4.25s * sfreq`, all labeled rest. -/
theorem run_marks_C8 (stim : List String) (sfreq : ℚ) :
    (stim ≠ [] →
      processRunMarks stim sfreq = .inline (relabelStim stim) ∧
      ∀ i s, stim.get? i = some s →
        (relabelStim stim).get? i =
          some (if s = "1" then "right_hand"
                else if s = "2" then "right_elbow" else s)) ∧
    (stim = [] →
      processRunMarks stim sfreq = .synthesized (ma2020RestMarks sfreq) ∧
      (ma2020RestMarks sfreq).length = 75 ∧
      ma2020RestMarks sfreq =
        (List.range 75).map (fun (k : Nat) => (((k : ℚ)) * (17/4) * sfreq, "rest"))) := by
  constructor
  · intro hne
    have hlen : stim.length ≠ 0 := fun h => hne (List.length_eq_zero.mp h)
    refine ⟨by simp [processRunMarks, hlen], ?_⟩
    intro i s hs
    unfold relabelStim maskAssign
    rw [List.get?_map, List.get?_map, hs]
    simp only [Option.map_some']
    by_cases h1 : s = "1"
    · subst h1
      rfl
    · by_cases h2 : s = "2"
      · subst h2
        rfl
      · simp [h1, h2]
  · intro he
    subst he
    refine ⟨by simp [processRunMarks], ?_, ma2020RestMarks_eq sfreq⟩
    rw [ma2020RestMarks_eq, List.length_map, List.length_range]

/-- Witness for claim C8: the inline marker vector `["1", "2", "x"]` is
relabeled entrywise by the fixed table, and the empty marker vector gets
the 75-trial rest train. -/
theorem run_marks_C8_witness :
    processRunMarks ["1", "2", "x"] 1000 = .inline ["right_hand", "right_elbow", "x"] ∧
    (relabelStim ["1", "2", "x"]).get? 0 = some "right_hand" ∧
    processRunMarks [] 1000 = .synthesized (ma2020RestMarks 1000) ∧
    (ma2020RestMarks 1000).length = 75 := by
  have h1 := (run_marks_C8 ["1", "2", "x"] 1000).1 (by simp)
  have h2 := (run_marks_C8 [] 1000).2 rfl
  exact ⟨by rw [h1.1]; rfl, h1.2 0 "1" rfl, h2.1, h2.2.1⟩

/-! ## Dataset configuration and `data_path` subject validation
(BCIComp.py lines 117-125 and 165-174; Ma2020.py lines 47-55 and 85-107) -/

/-- The declarative dataset metadata passed to `BaseDataset.__init__`. -/
structure DatasetConfig where
  subjects : List Nat
  sessions_per_subject : Nat
  code : String
deriving DecidableEq

/-- `Dataset4a.__init__`: subjects 1..5, `sessions_per_subject=4`. -/
def dataset4aConfig : DatasetConfig :=
  { subjects := List.range' 1 5, sessions_per_subject := 4, code := "Comp3Dataset4a" }

/-- `Ma2020.__init__`: subjects 1..25, one session per subject. -/
def ma2020Config : DatasetConfig :=
  { subjects := List.range' 1 25, sessions_per_subject := 1, code := "Ma2020" }

/-- `self.subject_names` of `Dataset4a`. -/
def subject_names : List String := ["aa", "al", "av", "aw", "ay"]

/-- `Dataset4a.data_path`: raise on an invalid subject BEFORE touching the
fetcher state (no file or network I/O); otherwise fetch the train archive
and the test label file. Paths follow the source URL/file templates. -/
def dataset4a_data_path (subject : Nat) (st : FetchState) :
    Except String (List String) × FetchState :=
  if subject ∈ dataset4aConfig.subjects then
    let name := subject_names.getD (subject - 1) ""
    let r1 := download_train ("1000Hz/data_set_IVa_" ++ name ++ ".mat")
                ("data_set_IVa_" ++ name ++ "_mat.zip") st
    let r2 := download_test ("true_labels_" ++ name ++ ".mat") r1.1
    (.ok [r1.2, r2.2], r2.1)
  else (.error "Invalid subject.", st)

/-- One I/O action of `Ma2020.data_path` after validation. -/
inductive PathAction
  | resolveCachePath (key : String)
  | checkBaseDir (key : String)
deriving DecidableEq

/-- Zero-pad to three digits (`sub-{0:03d}`). -/
def pad3 (n : Nat) : String :=
  if n < 10 then "00" ++ toString n
  else if n < 100 then "0" ++ toString n
  else toString n

/-- Zero-pad to two digits (`ses-{1:02d}`). -/
def pad2 (n : Nat) : String :=
  if n < 10 then "0" ++ toString n else toString n

/-- The per-session relative path of `Ma2020.data_path`: sessions 1..15
are motor-imagery task files, 16..19 are rest task files. -/
def ma2020SessionPath (subject session : Nat) : String :=
  if 1 ≤ session ∧ session < 16 then
    "sourcedata\\sub-" ++ pad3 subject ++ "\\ses-" ++ pad2 session ++
      "\\eeg\\sub-" ++ pad3 subject ++ "_ses-" ++ pad2 session ++
      "_task-motorimagery_eeg.cnt"
  else
    "sourcedata\\sub-" ++ pad3 subject ++ "\\ses-" ++ pad2 session ++
      "\\eeg\\sub-" ++ pad3 subject ++ "_ses-" ++ pad2 session ++
      "_task-rest_eeg.cnt"

/-- `Ma2020.data_path`: raise on an invalid subject BEFORE any I/O (empty
action trace); otherwise resolve the cache directory, check it exists
(raising FileNotFoundError when absent) and build the 19 session paths. -/
def ma2020_data_path (subject : Nat) (basepathExists : Bool) :
    Except String (List String) × List PathAction :=
  if subject ∈ ma2020Config.subjects then
    if basepathExists then
      (.ok ((List.range' 1 19).map (fun session => ma2020SessionPath subject session)),
       [.resolveCachePath "MNE-ma2020-data", .checkBaseDir "MNE-ma2020-data"])
    else
      (.error "FileNotFoundError",
       [.resolveCachePath "MNE-ma2020-data", .checkBaseDir "MNE-ma2020-data"])
  else (.error "Invalid subject number", [])

/-- Claim C7: a subject outside the declared population makes `data_path`
fail with the invalid-subject error before any network or file I/O: for
`Dataset4a` the fetcher state is returned untouched (no transfer, no file
change), for `Ma2020` the I/O action trace is empty. The error is the
returned value — nothing is swallowed or retried. -/
theorem invalid_subject_C7 (subject : Nat) (st : FetchState) (bexists : Bool) :
    (subject ∉ dataset4aConfig.subjects →
      dataset4a_data_path subject st = (.error "Invalid subject.", st)) ∧
    (subject ∉ ma2020Config.subjects →
      ma2020_data_path subject bexists = (.error "Invalid subject number", [])) := by
  constructor
  · intro h
    simp [dataset4a_data_path, h]
  · intro h
    simp [ma2020_data_path, h]

/-- Witness for claim C7: subject 26 is outside both populations (1..5
and 1..25); both calls fail untouched. -/
theorem invalid_subject_C7_witness :
    dataset4a_data_path 26 ⟨[], 0⟩ = (.error "Invalid subject.", ⟨[], 0⟩) ∧
    ma2020_data_path 26 true = (.error "Invalid subject number", []) := by
  have h := invalid_subject_C7 26 ⟨[], 0⟩ true
  exact ⟨h.1 (by decide), h.2 (by decide)⟩

/-- `Ma2020._get_single_subject_data`: one session holding runs 1..19,
each processed by the Case A branch on its marker vector and sample
rate. -/
def ma2020_get_single_subject_data (runInputs : List (List String × ℚ)) :
    List (String × List (String × RunMarks)) :=
  [("session_1",
    (List.range' 1 19).map (fun run =>
      ("run_" ++ toString run,
       processRunMarks (runInputs.getD (run - 1) ([], 0)).1
         (runInputs.getD (run - 1) ([], 0)).2)))]

/-- A successful Case B assembly always has the literal session and split
structure of the source return statement. -/
theorem assembleCaseB_ok_shape (cnt_T : List (List Int)) (cue_pos test_idx : List Nat)
    (true_y : List Int) (out : List (String × List (String × List (List Int))))
    (hok : assembleCaseB cnt_T cue_pos test_idx true_y = .ok out) :
    ∃ tr te, out = [("session_1", [("train", tr), ("test", te)])] := by
  unfold assembleCaseB at hok
  match hmin : test_idx.min? with
  | none => simp only [hmin] at hok; exact Except.noConfusion hok
  | some sep_idx =>
    simp only [hmin] at hok
    match hget : cue_pos.get? sep_idx with
    | none => simp only [hget] at hok; exact Except.noConfusion hok
    | some sep_pos =>
      simp only [hget] at hok
      by_cases hoob : cue_pos.any (fun p => sampleCount cnt_T ≤ p)
      · simp [hoob] at hok
      · simp only [hoob, Bool.false_eq_true, if_false] at hok
        by_cases hsh : cue_pos.length ≠ true_y.length
        · simp [hsh] at hok
        · rw [if_neg hsh] at hok
          injection hok with h
          exact ⟨_, _, h.symm⟩

/-- Claim C10: every successful Dataset4a assembly yields exactly one
session named session_1 with exactly the run keys train and test, even
though the dataset metadata declares `sessions_per_subject = 4`; every
Ma2020 assembly yields exactly one session named session_1 with exactly
the run keys run_1 through run_19. -/
theorem output_structure_C10 :
    (∀ (cnt_T : List (List Int)) (cue_pos test_idx : List Nat) (true_y : List Int)
       (out : List (String × List (String × List (List Int)))),
       assembleCaseB cnt_T cue_pos test_idx true_y = .ok out →
       out.map Prod.fst = ["session_1"] ∧
       ∀ s runs, (s, runs) ∈ out → runs.map Prod.fst = ["train", "test"]) ∧
    dataset4aConfig.sessions_per_subject = 4 ∧
    (∀ runInputs : List (List String × ℚ),
       (ma2020_get_single_subject_data runInputs).map Prod.fst = ["session_1"] ∧
       ∀ s runs, (s, runs) ∈ ma2020_get_single_subject_data runInputs →
         runs.map Prod.fst =
           ["run_1", "run_2", "run_3", "run_4", "run_5", "run_6", "run_7",
            "run_8", "run_9", "run_10", "run_11", "run_12", "run_13",
            "run_14", "run_15", "run_16", "run_17", "run_18", "run_19"]) := by
  refine ⟨?_, rfl, ?_⟩
  · intro cnt_T cue_pos test_idx true_y out hok
    obtain ⟨tr, te, rfl⟩ := assembleCaseB_ok_shape cnt_T cue_pos test_idx true_y out hok
    refine ⟨rfl, ?_⟩
    intro s runs hmem
    simp only [List.mem_singleton] at hmem
    injection hmem with h1 h2
    subst h2
    rfl
  · intro runInputs
    refine ⟨rfl, ?_⟩
    intro s runs hmem
    simp only [ma2020_get_single_subject_data, List.mem_singleton] at hmem
    injection hmem with h1 h2
    subst h2
    rw [List.map_map]
    have hcomp : (Prod.fst ∘ fun run : Nat =>
        ("run_" ++ toString run,
         processRunMarks (runInputs.getD (run - 1) ([], 0)).1
           (runInputs.getD (run - 1) ([], 0)).2)) =
        (fun run : Nat => "run_" ++ toString run) := funext (fun run => rfl)
    rw [hcomp]
    decide

/-- Witness for claim C10: a concrete successful assembly of a two-sample
recording has the session_1/train/test shape, and the Ma2020 hierarchy
always has the session_1 key. -/
theorem output_structure_C10_witness :
    ([("session_1",
       [("train", (splitMatrix ([[(0 : Int), 0]] ++ [eventRow 2 [1] [5]]) 1).1),
        ("test", (splitMatrix ([[(0 : Int), 0]] ++ [eventRow 2 [1] [5]]) 1).2)])].map
        (Prod.fst (α := String) (β := List (String × List (List Int)))) = ["session_1"]) ∧
    (ma2020_get_single_subject_data []).map Prod.fst = ["session_1"] := by
  have h := output_structure_C10
  exact ⟨(h.1 [[(0 : Int), 0]] [1] [0] [5] _ rfl).1, (h.2.2 []).1⟩

end Moabb
